import Mathlib

/-!
The programs of go-csv-worker-pool: header mapping, column index, row
reshaping, pre-pass count and row source.

A shallow embedding of the pure parts of
`app/csv-reader-with-postgres-copy/main.go` (the bulk-copy ingest program) and
of the header handling of the top-level `main.go` (the worker-pool program),
followed by the properties established for them.

Conventions of the embedding.

* A Go `string` holding valid UTF-8 is a Lean `String`; a `[]string` is a
  `List String`.
* A Go `map[string]string` literal is the association list of its entries, in
  source order; `m[key]` with the comma-ok form is `List.lookup`.
* A Go function returning `(value, error)` returns `Except String value`; the
  error string is the text given to `fmt.Errorf`.
* A Go `int` index is an `Int` (the code uses `-1` as a sentinel).
* The Unicode case table of the Go standard library (used by `strings.ToLower`
  on code points above ASCII) is a parameter `tbl : Char → Char`; the ASCII
  range is computed as the library does.
-/

deriving instance DecidableEq for Except

namespace CsvIngest

/-! ## Go standard library: `strings.ToLower`, `strings.TrimSpace` -/

/-- Go `unicode.ToLower`: below `0x80` the letters `A`..`Z` are shifted by
`'a' - 'A'` and everything else is unchanged; above, the library's Unicode case
table `tbl` decides. -/
def unicodeToLower (tbl : Char → Char) (c : Char) : Char :=
  if c.toNat < 128 then
    if 65 ≤ c.toNat ∧ c.toNat ≤ 90 then Char.ofNat (c.toNat + 32) else c
  else tbl c

/-- Go `strings.ToLower` on a valid UTF-8 string: every code point is mapped
with `unicode.ToLower`. -/
def toLower (tbl : Char → Char) (s : String) : String :=
  ⟨s.data.map (unicodeToLower tbl)⟩

/-- Go `unicode.IsSpace`: the code points with the Unicode White_Space
property. -/
def isSpace (c : Char) : Bool :=
  let n := c.toNat
  (9 ≤ n && n ≤ 13) || n == 32 || n == 133 || n == 160 || n == 5760 ||
  (8192 ≤ n && n ≤ 8202) || n == 8232 || n == 8233 || n == 8239 ||
  n == 8287 || n == 12288

/-- Go `strings.TrimSpace`: leading and trailing white space removed. -/
def trimSpace (s : String) : String :=
  ⟨((s.data.dropWhile isSpace).reverse.dropWhile isSpace).reverse⟩

/-! ## The worker-pool program (`main.go`) -/

namespace WorkerPool

/-- The function `normalize` of `main.go`: `strings.ToLower`, then
`strings.TrimSpace`. -/
def normalize (tbl : Char → Char) (h : String) : String :=
  trimSpace (toLower tbl h)

/-- The map `headerToColumn` of `main.go` (22 entries). -/
def headerToColumn : List (String × String) :=
  [ ("globalrank", "global_rank"),
    ("global_rank", "global_rank"),
    ("tldrank", "tld_rank"),
    ("tld_rank", "tld_rank"),
    ("domain", "domain"),
    ("tld", "tld"),
    ("refsubnets", "ref_subnets"),
    ("ref_subnets", "ref_subnets"),
    ("refips", "ref_ips"),
    ("ref_ips", "ref_ips"),
    ("idn_domain", "idn_domain"),
    ("idndomain", "idn_domain"),
    ("idn_tld", "idn_tld"),
    ("idntld", "idn_tld"),
    ("prevglobalrank", "prev_global_rank"),
    ("prev_global_rank", "prev_global_rank"),
    ("prevtldrank", "prev_tld_rank"),
    ("prev_tld_rank", "prev_tld_rank"),
    ("prevrefsubnets", "prev_ref_subnets"),
    ("prev_ref_subnets", "prev_ref_subnets"),
    ("prevrefips", "prev_ref_ips"),
    ("prev_ref_ips", "prev_ref_ips") ]

/-- The first-row branch of `readCsvFilePerLineThenSendToWorker`: every header
is normalized and looked up in `headerToColumn`; an unknown header ends the
process through `log.Fatalf` (here: `Except.error` with the logged text). -/
def mapFirstRow (tbl : Char → Char) : List String → Except String (List String)
  | [] => .ok []
  | h :: rest =>
    let key := normalize tbl h
    match headerToColumn.lookup key with
    | none => .error ("unknown CSV header: " ++ h ++ " (normalized: " ++ key ++ ")")
    | some col =>
      match mapFirstRow tbl rest with
      | .error e => .error e
      | .ok parsed => .ok (col :: parsed)

end WorkerPool

/-! ## The bulk-copy ingest program (`app/csv-reader-with-postgres-copy/main.go`) -/

/-- The map `headerToColumn` of the ingest program (12 entries). -/
def headerToColumn : List (String × String) :=
  [ ("globalrank", "global_rank"),
    ("tldrank", "tld_rank"),
    ("domain", "domain"),
    ("tld", "tld"),
    ("refsubnets", "ref_subnets"),
    ("refips", "ref_ips"),
    ("idn_domain", "idn_domain"),
    ("idn_tld", "idn_tld"),
    ("prevglobalrank", "prev_global_rank"),
    ("prevtldrank", "prev_tld_rank"),
    ("prevrefsubnets", "prev_ref_subnets"),
    ("prevrefips", "prev_ref_ips") ]

/-- The function `normalizeAndMapHeaders`: each header is lowercased with
`strings.ToLower` and looked up in `mapper`; the first header without an entry
makes the function return `nil` and the error
`"no mapping for header: " ++ h`. -/
def normalizeAndMapHeaders (tbl : Char → Char) :
    List String → List (String × String) → Except String (List String)
  | [], _ => .ok []
  | h :: rest, mapper =>
    let key := toLower tbl h
    match mapper.lookup key with
    | none => .error ("no mapping for header: " ++ h)
    | some col =>
      match normalizeAndMapHeaders tbl rest mapper with
      | .error e => .error e
      | .ok out => .ok (col :: out)

/-- The slice `dbColumns`: the target schema. -/
def dbColumns : List String :=
  [ "global_rank", "tld_rank", "domain", "tld", "ref_subnets", "ref_ips",
    "idn_domain", "idn_tld", "prev_global_rank", "prev_tld_rank",
    "prev_ref_subnets", "prev_ref_ips" ]

/-- The CSV header of scenario S1. -/
def s1Header : List String :=
  [ "GlobalRank", "TldRank", "Domain", "TLD", "RefSubNets", "RefIPs",
    "IDN_Domain", "IDN_TLD", "PrevGlobalRank", "PrevTldRank",
    "PrevRefSubNets", "PrevRefIPs" ]

/-- The snake_case header of scenario S3. -/
def s3Header : List String :=
  [ "global_rank", "tld_rank", "domain", "tld", "ref_subnets", "ref_ips",
    "idn_domain", "idn_tld", "prev_global_rank", "prev_tld_rank",
    "prev_ref_subnets", "prev_ref_ips" ]

/-- The inner loop of `buildIndexMap`: `found` starts at `-1`; the headers are
visited from position `j` on, and the first one equal to `dbCol` sets `found`
to its position and breaks. -/
def findHeader (dbCol : String) : List String → Int → Int
  | [], _ => -1
  | h :: rest, j => if h = dbCol then j else findHeader dbCol rest (j + 1)

/-- The function `buildIndexMap`: for each target column, in order, the position
of its first occurrence in `header`; the first target column that does not
occur makes the function return `nil` and an error. -/
def buildIndexMap (header : List String) : List String → Except String (List Int)
  | [] => .ok []
  | dbCol :: rest =>
    let found := findHeader dbCol header 0
    if found = -1 then
      .error ("db column " ++ dbCol ++ " not found in CSV header")
    else
      match buildIndexMap header rest with
      | .error e => .error e
      | .ok index => .ok (found :: index)

/-- The Go index expression `rec[srcIdx]`: `none` stands for the run-time
panic `index out of range`. -/
def indexRecord (rec : List String) (srcIdx : Int) : Option String :=
  if srcIdx < 0 then none else rec[srcIdx.toNat]?

/-- The function `convertRecord`: `out[i] = rec[indexMap[i]]`; `none` when an
index expression panics. -/
def convertRecord (rec : List String) : List Int → Option (List String)
  | [] => some []
  | srcIdx :: rest =>
    match indexRecord rec srcIdx with
    | none => none
    | some field =>
      match convertRecord rec rest with
      | none => none
      | some out => some (field :: out)

/-! ### The CSV reader and the pre-pass -/

/-- A `csv.Reader` over an opened file: the results of the successive calls of
`Read` that come before `io.EOF`, each a record or a decode error. -/
abbrev CsvReader := List (Except String (List String))

/-- The loop of `countCSVRows`: `io.EOF` ends it with the count, a decode error
returns `(0, err)`, a record increments the count. -/
def countLoop : CsvReader → Int → Except String Int
  | [], count => .ok count
  | .error e :: _, _ => .error e
  | .ok _ :: rest, count => countLoop rest (count + 1)

/-- The function `countCSVRows`; the argument is the outcome of `os.Open`
followed by `csv.NewReader`. The counter starts at `-1`. -/
def countCSVRows (file : Except String CsvReader) : Except String Int :=
  match file with
  | .error e => .error e
  | .ok r => countLoop r (-1)

/-! ### Producer, buffer and row source -/

/-- The struct `chanSource` without its channel (the channel is part of
`Sys`): the current row and the error field. -/
structure ChanSource where
  row : Option (List String)
  err : Option String
deriving DecidableEq, Repr

/-- The state of the ingest from line 51 of `main` on: the CSV reader, the
index map, the buffered channel `rowChan` as a FIFO queue and whether it has
been closed, the counter `processed`, the row source `src`, the slices that the
calls of `Values` have returned so far, whether `Next` has returned `false`, and the
message of `log.Fatal` once the process has exited through it. -/
structure Sys where
  reader : CsvReader
  indexMap : List Int
  ch : List (List String)
  closed : Bool
  processed : Nat
  src : ChanSource
  delivered : List (List String)
  finished : Bool
  fatal : Option String
deriving DecidableEq, Repr

/-- The capacity of `rowChan`. -/
def chanCap : Nat := 500

/-- The method `chanSource.Next`, given the contents of the channel `s.ch` and
whether it has been closed: a receive that gets a row stores it in `s.row` and
returns `true`; on a closed and drained channel it returns `false` and leaves
`s.row` as it is; `none` when the receive blocks. The result carries the row
source and the channel contents after the call. -/
def ChanSource.Next (s : ChanSource) (ch : List (List String)) (closed : Bool) :
    Option (Bool × ChanSource × List (List String)) :=
  match ch with
  | r :: rest => some (true, { s with row := some r }, rest)
  | [] => if closed then some (false, s, []) else none

/-- The method `chanSource.Values`: `return s.row, nil`. A nil `s.row` is the
slice without elements. -/
def ChanSource.Values (s : ChanSource) : List String × Option String :=
  (s.row.getD [], none)

/-- The method `chanSource.Err`: `return s.err`. -/
def ChanSource.Err (s : ChanSource) : Option String := s.err

/-- One iteration of the producer goroutine (lines 72-86); `none` when the
producer cannot move: it has closed the channel, or its send blocks on a full
buffer. A decode error ends the process through `log.Fatal`; an index panic in
`convertRecord` ends it too. -/
def producerStep (s : Sys) : Option Sys :=
  if s.closed then none
  else
    match s.reader with
    | [] => some { s with closed := true }
    | .error e :: _ => some { s with fatal := some e }
    | .ok rec :: rest =>
      match convertRecord rec s.indexMap with
      | none => some { s with fatal := some "panic: index out of range" }
      | some parsed =>
        if s.ch.length < chanCap then
          some { s with reader := rest, ch := s.ch ++ [parsed],
                        processed := s.processed + 1 }
        else none

/-- One iteration of the bulk-copy consumer: it calls `src.Next()`; when that
returned `true` it calls `src.Values()` and takes the slice it returns as the
next payload; when it returned `false` the consumer is done. `none` when
`Next` blocks on an empty open channel or has already returned `false`. -/
def consumerStep (s : Sys) : Option Sys :=
  if s.finished then none
  else
    match s.src.Next s.ch s.closed with
    | none => none
    | some (true, src, ch) =>
      some { s with ch := ch, src := src,
                    delivered := s.delivered ++ [src.Values.1] }
    | some (false, src, ch) =>
      some { s with ch := ch, src := src, finished := true }

/-- One scheduling step: nothing runs after `log.Fatal`; otherwise the chosen
task runs (`true`: producer, `false`: consumer), and when it cannot move the
other one runs. -/
def step (s : Sys) (who : Bool) : Sys :=
  if s.fatal.isSome then s
  else if who then
    match producerStep s with
    | some t => t
    | none => (consumerStep s).getD s
  else
    match consumerStep s with
    | some t => t
    | none => (producerStep s).getD s

/-- A run under a schedule. -/
def run (sched : List Bool) (s : Sys) : Sys := sched.foldl step s

/-- The state in which producer and consumer start (lines 68 and 111). -/
def initSys (reader : CsvReader) (indexMap : List Int) : Sys :=
  { reader := reader, indexMap := indexMap, ch := [], closed := false,
    processed := 0, src := { row := none, err := none }, delivered := [],
    finished := false, fatal := none }

/-- The state of a process that exited through `log.Fatal` before the producer
was started. -/
def fatalSys (reader : CsvReader) (msg : String) : Sys :=
  { initSys reader [] with fatal := some msg }

/-- Lines 51-118 of `main`: the header is read and mapped, the index map is
built (each failure is a `log.Fatal`), then producer and consumer run under
the schedule. -/
def ingest (tbl : Char → Char) (sched : List Bool) (csv : CsvReader) : Sys :=
  match csv with
  | [] => fatalSys [] "EOF"
  | .error e :: rest => fatalSys rest e
  | .ok header :: rest =>
    match normalizeAndMapHeaders tbl header headerToColumn with
    | .error e => fatalSys rest e
    | .ok mappedHeader =>
      match buildIndexMap mappedHeader dbColumns with
      | .error e => fatalSys rest e
      | .ok indexMap => run sched (initSys rest indexMap)

/-- The data row of scenario S1. -/
def s1Row : List String :=
  [ "1", "1", "google.com", "com", "500000", "900000", "google.com", "com",
    "1", "1", "499000", "899000" ]

/-- The header of scenario S2. -/
def s2Header : List String :=
  [ "Domain", "TLD", "GlobalRank", "TldRank", "RefSubNets", "RefIPs",
    "IDN_Domain", "IDN_TLD", "PrevGlobalRank", "PrevTldRank",
    "PrevRefSubNets", "PrevRefIPs" ]

/-- The data row of scenario S2. -/
def s2Row : List String :=
  [ "wikipedia.org", "org", "6", "1", "450000", "800000", "wikipedia.org",
    "org", "6", "1", "449000", "799000" ]

/-- The header mapping dictionary as section 6 of the specification lists it:
22 normalized keys, each with its target column. -/
def specDictionary : List (String × String) :=
  [ ("globalrank", "global_rank"), ("global_rank", "global_rank"),
    ("tldrank", "tld_rank"), ("tld_rank", "tld_rank"),
    ("domain", "domain"),
    ("tld", "tld"),
    ("refsubnets", "ref_subnets"), ("ref_subnets", "ref_subnets"),
    ("refips", "ref_ips"), ("ref_ips", "ref_ips"),
    ("idndomain", "idn_domain"), ("idn_domain", "idn_domain"),
    ("idntld", "idn_tld"), ("idn_tld", "idn_tld"),
    ("prevglobalrank", "prev_global_rank"), ("prev_global_rank", "prev_global_rank"),
    ("prevtldrank", "prev_tld_rank"), ("prev_tld_rank", "prev_tld_rank"),
    ("prevrefsubnets", "prev_ref_subnets"), ("prev_ref_subnets", "prev_ref_subnets"),
    ("prevrefips", "prev_ref_ips"), ("prev_ref_ips", "prev_ref_ips") ]

/-- The lookup of the lowercased token, with the empty string when there is no
entry. -/
def mappedColumn (tbl : Char → Char) (t : String) : String :=
  (headerToColumn.lookup (toLower tbl t)).getD ""

/-- The payloads that the producer will still publish from a reader: those of
the records before the first decode error or index panic. -/
def pending (indexMap : List Int) : CsvReader → List (List String)
  | [] => []
  | .error _ :: _ => []
  | .ok rec :: rest =>
    match convertRecord rec indexMap with
    | none => []
    | some parsed => parsed :: pending indexMap rest

/-- The number of steps left to a clean end of stream: two per record still to
be read, one per buffered row, one for closing the channel and one for the
call of `Next` that returns `false`. -/
def stepsLeft (s : Sys) : Nat :=
  2 * s.reader.length + s.ch.length + (if s.closed then 0 else 1) +
    (if s.finished then 0 else 1)

/-- The ordering invariant of a run whose payloads are `total`: what was
delivered, then what is buffered, then what is still to be published, is
`total`; a closed channel means the reader is exhausted; `Next` has returned
`false` only on a closed and drained channel; the error field of the row
source is empty; the current row of the row source is the last slice that
`Values` returned. -/
def Inv (total : List (List String)) (s : Sys) : Prop :=
  s.delivered ++ s.ch ++ pending s.indexMap s.reader = total ∧
  (s.closed = true → s.reader = []) ∧
  (s.finished = true → s.closed = true ∧ s.ch = []) ∧
  s.src.err = none ∧
  s.src.row = s.delivered.getLast?

/-- A state without fatal error whose remaining reads are all records that
`convertRecord` reshapes without panic. -/
def Clean (s : Sys) : Prop :=
  s.fatal = none ∧
  ∀ x ∈ s.reader, ∃ rec parsed, x = .ok rec ∧
    convertRecord rec s.indexMap = some parsed

/-- A state whose reader holds the decode error `e` after records that reshape
without panic, with the channel still open and `Next` not yet `false`. -/
def Doomed (e : String) (s : Sys) : Prop :=
  s.closed = false ∧ s.finished = false ∧
  (s.fatal = none ∨ s.fatal = some e) ∧
  ∃ (recs : List (List String)) (rest : CsvReader),
    s.reader = recs.map Except.ok ++ .error e :: rest ∧
    ∀ r ∈ recs, ∃ parsed, convertRecord r s.indexMap = some parsed

/-- The number of steps left before the producer meets the decode error. -/
def stepsToError (s : Sys) : Nat :=
  2 * (pending s.indexMap s.reader).length + s.ch.length

/-- The CSV of scenario S6: the S1 header, the S1 row, then a record that fails
to decode. -/
def s6Csv : CsvReader :=
  [.ok s1Header, .ok s1Row, .error "parse error: unterminated quoted field"]

end CsvIngest

namespace CsvIngest

/-! ## Header mapper -/

theorem mem_of_lookup_eq_some {k v : String} :
    ∀ {l : List (String × String)}, l.lookup k = some v → (k, v) ∈ l
  | [], h => by simp at h
  | (a, b) :: l, h => by
    by_cases hk : k = a
    · subst hk
      simp [List.lookup] at h
      simp [h]
    · have hne : (k == a) = false := by simpa using hk
      simp only [List.lookup, hne] at h
      exact List.mem_cons_of_mem _ (mem_of_lookup_eq_some h)

/-- Every key of the ingest dictionary is left unchanged by `trimSpace`. -/
theorem trimSpace_key {k v : String} (h : headerToColumn.lookup k = some v) :
    trimSpace k = k := by
  have hm := mem_of_lookup_eq_some h
  simp only [headerToColumn, List.mem_cons, Prod.mk.injEq, List.mem_singleton,
    List.not_mem_nil, or_false] at hm
  rcases hm with h | h | h | h | h | h | h | h | h | h | h | h <;>
    (obtain ⟨rfl, -⟩ := h; rfl)

/-- The mapper succeeds exactly when every lowercased token has an entry, and
then returns the entries in order. -/
theorem normalizeAndMapHeaders_ok_iff (tbl : Char → Char)
    (mapper : List (String × String)) :
    ∀ (headers out : List String),
      normalizeAndMapHeaders tbl headers mapper = .ok out ↔
        headers.map (fun h => mapper.lookup (toLower tbl h)) = out.map some
  | [], out => by
    cases out <;> simp [normalizeAndMapHeaders]
  | h :: rest, out => by
    have ih := normalizeAndMapHeaders_ok_iff tbl mapper rest
    simp only [normalizeAndMapHeaders, List.map_cons]
    cases hl : mapper.lookup (toLower tbl h) with
    | none => cases out <;> simp
    | some col =>
      cases hr : normalizeAndMapHeaders tbl rest mapper with
      | error e =>
        cases out with
        | nil => simp
        | cons o os =>
          have := (ih os).not.mp (by simp [hr])
          simp [this]
      | ok out2 =>
        have h2 := (ih out2).mp hr
        cases out with
        | nil => simp
        | cons o os =>
          simp only [Except.ok.injEq, List.cons.injEq, List.map_cons, Option.some.injEq, h2]
          constructor
          · rintro ⟨rfl, rfl⟩; exact ⟨rfl, rfl⟩
          · rintro ⟨rfl, h3⟩
            exact ⟨rfl, List.map_injective_iff.mpr (Option.some_injective _) h3⟩

/-- The mapper fails at the first token whose lowercase form has no entry. -/
theorem normalizeAndMapHeaders_error (tbl : Char → Char)
    (mapper : List (String × String)) :
    ∀ (pre : List String) (bad : String) (post : List String),
      (∀ t ∈ pre, (mapper.lookup (toLower tbl t)).isSome = true) →
      mapper.lookup (toLower tbl bad) = none →
      normalizeAndMapHeaders tbl (pre ++ bad :: post) mapper =
        .error ("no mapping for header: " ++ bad)
  | [], bad, post, _, hb => by
    simp [normalizeAndMapHeaders, hb]
  | t :: pre, bad, post, hp, hb => by
    have ih := normalizeAndMapHeaders_error tbl mapper pre bad post
      (fun x hx => hp x (List.mem_cons_of_mem _ hx)) hb
    have ht := hp t (List.mem_cons_self _ _)
    obtain ⟨col, hcol⟩ := Option.isSome_iff_exists.mp ht
    simp [normalizeAndMapHeaders, hcol, ih]

/-- A list with an element violating `p` splits at the first such element. -/
theorem exists_first_split {α : Type} (p : α → Bool) :
    ∀ (l : List α), (∃ x ∈ l, p x = false) →
      ∃ pre bad post, l = pre ++ bad :: post ∧ (∀ t ∈ pre, p t = true) ∧ p bad = false
  | [], h => by simp at h
  | a :: l, h => by
    cases ha : p a with
    | false => exact ⟨[], a, l, rfl, by simp, ha⟩
    | true =>
      have h2 : ∃ x ∈ l, p x = false := by
        obtain ⟨x, hx, hpx⟩ := h
        rcases List.mem_cons.mp hx with rfl | hx
        · rw [ha] at hpx; cases hpx
        · exact ⟨x, hx, hpx⟩
      obtain ⟨pre, bad, post, rfl, hpre, hbad⟩ := exists_first_split p l h2
      refine ⟨a :: pre, bad, post, rfl, ?_, hbad⟩
      intro t ht
      rcases List.mem_cons.mp ht with rfl | ht
      · exact ha
      · exact hpre t ht

/-- C1 (code defect). `normalizeAndMapHeaders` lowercases a header but does not
trim it: the header `" Domain "`, whose lowercased and trimmed form `domain` is
a key of the dictionary, is rejected with an error, whereas the header loop of
the worker-pool program, which goes through `normalize`, maps it to
`domain`. -/
theorem normalizeAndMapHeaders_untrimmed (tbl : Char → Char) :
    headerToColumn.lookup (trimSpace (toLower tbl " Domain ")) = some "domain" ∧
    normalizeAndMapHeaders tbl [" Domain "] headerToColumn =
      .error "no mapping for header:  Domain " ∧
    WorkerPool.mapFirstRow tbl [" Domain "] = .ok ["domain"] :=
  ⟨by rfl, by rfl, by rfl⟩

/-- C2 (code defect). The dictionary of the ingest program has 12 of the 22 keys
of the specification: ten keys, among them `global_rank` and `tld_rank`, have
no entry, so the snake_case header of scenario S3 is rejected at its first
token, while the S1 header maps to the target schema; the dictionary of the
worker-pool program resolves all 22 keys and maps the S3 header to the target
schema. -/
theorem headerToColumn_misses_snake_case :
    (∀ kv ∈ specDictionary, WorkerPool.headerToColumn.lookup kv.1 = some kv.2) ∧
    (∀ k ∈ ["global_rank", "tld_rank", "ref_subnets", "ref_ips", "idndomain",
        "idntld", "prev_global_rank", "prev_tld_rank", "prev_ref_subnets",
        "prev_ref_ips"], headerToColumn.lookup k = none) ∧
    (∀ tbl : Char → Char,
      normalizeAndMapHeaders tbl s3Header headerToColumn =
        .error "no mapping for header: global_rank" ∧
      normalizeAndMapHeaders tbl s1Header headerToColumn = .ok dbColumns ∧
      WorkerPool.mapFirstRow tbl s3Header = .ok dbColumns) :=
  ⟨by decide, by decide, fun _ => ⟨by rfl, by rfl, by rfl⟩⟩

/-- C3. With the dictionary of the ingest program, a header list in which some
token, lowercased and trimmed, is not a key splits at the first token `bad`
that the mapper cannot resolve; `normalizeAndMapHeaders` returns the error
`no mapping for header: bad` (and no mapped header), and the driver exits
through `log.Fatal` with that message before the producer starts: the channel
is empty, nothing was delivered and the counter is 0. For the S1 header
followed by `Foo` the message names `Foo`. -/
theorem unknown_header_fails_closed (tbl : Char → Char) (header : List String)
    (h : ∃ t ∈ header, headerToColumn.lookup (trimSpace (toLower tbl t)) = none) :
    (∃ pre bad post, header = pre ++ bad :: post ∧
      (∀ t ∈ pre, (headerToColumn.lookup (toLower tbl t)).isSome = true) ∧
      headerToColumn.lookup (toLower tbl bad) = none ∧
      normalizeAndMapHeaders tbl header headerToColumn =
        .error ("no mapping for header: " ++ bad) ∧
      ∀ (sched : List Bool) (rest : CsvReader),
        ingest tbl sched (.ok header :: rest) =
          fatalSys rest ("no mapping for header: " ++ bad) ∧
        (ingest tbl sched (.ok header :: rest)).ch = [] ∧
        (ingest tbl sched (.ok header :: rest)).delivered = [] ∧
        (ingest tbl sched (.ok header :: rest)).processed = 0) ∧
    normalizeAndMapHeaders tbl (s1Header ++ ["Foo"]) headerToColumn =
      .error "no mapping for header: Foo" := by
  refine ⟨?_, rfl⟩
  have h1 : ∃ t ∈ header, (headerToColumn.lookup (toLower tbl t)).isSome = false := by
    obtain ⟨t, ht, hnone⟩ := h
    refine ⟨t, ht, ?_⟩
    cases hl : headerToColumn.lookup (toLower tbl t) with
    | none => rfl
    | some v =>
      rw [trimSpace_key hl, hl] at hnone
      cases hnone
  obtain ⟨pre, bad, post, hsplit, hpre, hbad⟩ :=
    exists_first_split (fun t => (headerToColumn.lookup (toLower tbl t)).isSome) header h1
  have hbad2 : headerToColumn.lookup (toLower tbl bad) = none := by
    cases hl : headerToColumn.lookup (toLower tbl bad) with
    | none => rfl
    | some v => simp [hl] at hbad
  have herr := normalizeAndMapHeaders_error tbl headerToColumn pre bad post hpre hbad2
  rw [← hsplit] at herr
  refine ⟨pre, bad, post, hsplit, hpre, hbad2, herr, ?_⟩
  intro sched rest
  have hi : ingest tbl sched (.ok header :: rest) =
      fatalSys rest ("no mapping for header: " ++ bad) := by
    simp only [ingest, herr]
  rw [hi]
  exact ⟨rfl, rfl, rfl, rfl⟩

/-- C3 at the header `Domain,Foo`. -/
theorem unknown_header_fails_closed_witness :
    (∃ pre bad post, ["Domain", "Foo"] = pre ++ bad :: post ∧
      (∀ t ∈ pre, (headerToColumn.lookup (toLower id t)).isSome = true) ∧
      headerToColumn.lookup (toLower id bad) = none ∧
      normalizeAndMapHeaders id ["Domain", "Foo"] headerToColumn =
        .error ("no mapping for header: " ++ bad) ∧
      ∀ (sched : List Bool) (rest : CsvReader),
        ingest id sched (.ok ["Domain", "Foo"] :: rest) =
          fatalSys rest ("no mapping for header: " ++ bad) ∧
        (ingest id sched (.ok ["Domain", "Foo"] :: rest)).ch = [] ∧
        (ingest id sched (.ok ["Domain", "Foo"] :: rest)).delivered = [] ∧
        (ingest id sched (.ok ["Domain", "Foo"] :: rest)).processed = 0) ∧
    normalizeAndMapHeaders id (s1Header ++ ["Foo"]) headerToColumn =
      .error "no mapping for header: Foo" :=
  unknown_header_fails_closed id ["Domain", "Foo"] ⟨"Foo", by simp, rfl⟩

/-! ## Column index builder and row reshaping -/

/-- The inner loop returns `-1` when the column is absent and otherwise the
start position plus the index of the first occurrence. -/
theorem findHeader_eq (dbCol : String) :
    ∀ (hs : List String) (j : Int),
      findHeader dbCol hs j =
        if dbCol ∈ hs then j + ((hs.indexOf dbCol : Nat) : Int) else -1
  | [], j => by simp [findHeader]
  | h :: rest, j => by
    by_cases hh : h = dbCol
    · subst hh
      simp [findHeader]
    · have hne : dbCol ≠ h := fun e => hh e.symm
      simp only [findHeader, hh, if_false, findHeader_eq dbCol rest (j + 1),
        List.mem_cons, hne, false_or, List.indexOf_cons_ne rest hh]
      split
      · push_cast; ring
      · rfl

theorem findHeader_zero (dbCol : String) (hs : List String) :
    findHeader dbCol hs 0 =
      if dbCol ∈ hs then ((hs.indexOf dbCol : Nat) : Int) else -1 := by
  rw [findHeader_eq]; simp

/-- When every target column occurs in the header, the index map lists the
first occurrences. -/
theorem buildIndexMap_of_subset (header : List String) :
    ∀ (dbCols : List String), (∀ c ∈ dbCols, c ∈ header) →
      buildIndexMap header dbCols =
        .ok (dbCols.map (fun c => ((header.indexOf c : Nat) : Int)))
  | [], _ => rfl
  | c :: rest, h => by
    have hc : c ∈ header := h c (List.mem_cons_self _ _)
    have ih := buildIndexMap_of_subset header rest
      (fun x hx => h x (List.mem_cons_of_mem _ hx))
    have hne : ((List.indexOf c header : Nat) : Int) ≠ -1 := by omega
    simp [buildIndexMap, findHeader_zero, hc, ih, hne]

/-- When some target column is missing from the header, the builder fails. -/
theorem buildIndexMap_of_missing (header : List String) :
    ∀ (dbCols : List String), (∃ c ∈ dbCols, c ∉ header) →
      ∃ e, buildIndexMap header dbCols = .error e
  | [], h => by simp at h
  | c :: rest, h => by
    by_cases hc : c ∈ header
    · have h2 : ∃ x ∈ rest, x ∉ header := by
        obtain ⟨x, hx, hxn⟩ := h
        rcases List.mem_cons.mp hx with rfl | hx
        · exact absurd hc hxn
        · exact ⟨x, hx, hxn⟩
      obtain ⟨e, he⟩ := buildIndexMap_of_missing header rest h2
      have hne : ((List.indexOf c header : Nat) : Int) ≠ -1 := by omega
      exact ⟨e, by simp [buildIndexMap, findHeader_zero, hc, he, hne]⟩
    · exact ⟨"db column " ++ c ++ " not found in CSV header",
        by simp [buildIndexMap, findHeader_zero, hc]⟩

/-- A successful index map is the list of first occurrences, and every target
column occurs in the header. -/
theorem buildIndexMap_ok (header dbCols : List String) (P : List Int)
    (h : buildIndexMap header dbCols = .ok P) :
    (∀ c ∈ dbCols, c ∈ header) ∧
      P = dbCols.map (fun c => ((header.indexOf c : Nat) : Int)) := by
  by_cases hs : ∀ c ∈ dbCols, c ∈ header
  · refine ⟨hs, ?_⟩
    rw [buildIndexMap_of_subset header dbCols hs] at h
    exact (Except.ok.inj h).symm
  · have hm : ∃ c ∈ dbCols, c ∉ header := by
      by_contra hcon
      exact hs (fun c hc => by
        by_contra hn
        exact hcon ⟨c, hc, hn⟩)
    obtain ⟨e, he⟩ := buildIndexMap_of_missing header dbCols hm
    rw [he] at h
    cases h

/-- Before the first occurrence of `c` no header equals `c`. -/
theorem ne_before_indexOf (header : List String) (c : String) (j : Nat)
    (hj : j < header.indexOf c) : header[j]? ≠ some c := by
  intro hget
  have hlt : j < header.length := lt_of_lt_of_le hj List.indexOf_le_length
  have h1 := @List.not_of_lt_findIdx _ (fun x => x == c) header j hj
  rw [List.getElem?_eq_getElem hlt] at hget
  have h2 : header[j] = c := Option.some.inj hget
  simp [h2] at h1

/-- Reshaping with in-range indices never panics and picks the indexed
fields. -/
theorem convertRecord_map (rec : List String) :
    ∀ (ks : List Nat), (∀ k ∈ ks, k < rec.length) →
      ∃ payload, convertRecord rec (ks.map (fun k : Nat => (k : Int))) = some payload ∧
        payload.map some = ks.map (fun k => rec[k]?)
  | [], _ => ⟨[], rfl, rfl⟩
  | k :: ks, h => by
    have hk : k < rec.length := h k (List.mem_cons_self _ _)
    obtain ⟨out, ho, hm⟩ := convertRecord_map rec ks
      (fun x hx => h x (List.mem_cons_of_mem _ hx))
    refine ⟨rec[k] :: out, ?_, ?_⟩
    · have hi : indexRecord rec (k : Int) = some rec[k] := by
        simp [indexRecord, List.getElem?_eq_getElem hk]
      simp [convertRecord, hi, ho]
    · simp [hm, List.getElem?_eq_getElem hk]

/-- With an index list from `buildIndexMap` and a record as long as the header,
`convertRecord` does not panic. -/
theorem convertRecord_isSome (header dbCols : List String) (P : List Int)
    (R : List String) (h : buildIndexMap header dbCols = .ok P)
    (hR : R.length = header.length) : ∃ payload, convertRecord R P = some payload := by
  obtain ⟨hs, rfl⟩ := buildIndexMap_ok header dbCols P h
  have hks : ∀ k ∈ dbCols.map (fun c => header.indexOf c), k < R.length := by
    intro k hk
    obtain ⟨c, hc, rfl⟩ := List.mem_map.mp hk
    rw [hR]
    exact List.indexOf_lt_length.mpr (hs c hc)
  obtain ⟨payload, hp, -⟩ := convertRecord_map R _ hks
  rw [List.map_map] at hp
  exact ⟨payload, hp⟩

/-- C4. Whenever `buildIndexMap` succeeds with `P`, `P` has the length of the
target schema, and for every position `i` of the target schema `P[i]` is a
valid index `k` of the mapped header, the header at `k` is the target column
`C[i]`, and no header before `k` is that column (first occurrence). -/
theorem buildIndexMap_first_occurrence (header dbCols : List String) (P : List Int)
    (h : buildIndexMap header dbCols = .ok P) :
    P.length = dbCols.length ∧
    ∀ (i : Nat) (c : String), dbCols[i]? = some c →
      ∃ k : Nat, P[i]? = some (k : Int) ∧ k < header.length ∧
        header[k]? = some c ∧ ∀ j, j < k → header[j]? ≠ some c := by
  obtain ⟨hs, rfl⟩ := buildIndexMap_ok header dbCols P h
  refine ⟨by simp, ?_⟩
  intro i c hc
  have hmem : c ∈ header := hs c (List.getElem?_mem hc)
  refine ⟨header.indexOf c, by simp [hc], List.indexOf_lt_length.mpr hmem,
    List.getElem?_indexOf hmem, ?_⟩
  intro j hj
  exact ne_before_indexOf header c j hj

/-- C4 at the header `tld,domain,tld` and the schema `tld,domain`. -/
theorem buildIndexMap_first_occurrence_witness :
    ([0, 1] : List Int).length = ["tld", "domain"].length ∧
    ∀ (i : Nat) (c : String), ["tld", "domain"][i]? = some c →
      ∃ k : Nat, ([0, 1] : List Int)[i]? = some (k : Int) ∧
        k < ["tld", "domain", "tld"].length ∧
        ["tld", "domain", "tld"][k]? = some c ∧
        ∀ j, j < k → ["tld", "domain", "tld"][j]? ≠ some c :=
  buildIndexMap_first_occurrence ["tld", "domain", "tld"] ["tld", "domain"] [0, 1]
    (by rfl)

/-- C5. `buildIndexMap` returns an error exactly when some target column does
not occur in the mapped header, and an index list exactly when all of them
occur; so a header with further columns keeps a success a success, and the
empty schema gives the empty list. -/
theorem buildIndexMap_error_iff_missing (header dbCols : List String) :
    ((∃ e, buildIndexMap header dbCols = .error e) ↔ ∃ c ∈ dbCols, c ∉ header) ∧
    ((∃ P, buildIndexMap header dbCols = .ok P) ↔ ∀ c ∈ dbCols, c ∈ header) ∧
    (∀ (header2 : List String) (P : List Int), (∀ c ∈ header, c ∈ header2) →
      buildIndexMap header dbCols = .ok P →
      ∃ P2, buildIndexMap header2 dbCols = .ok P2) ∧
    buildIndexMap header [] = .ok [] := by
  refine ⟨⟨?_, buildIndexMap_of_missing header dbCols⟩, ⟨?_, ?_⟩, ?_, rfl⟩
  · rintro ⟨e, he⟩
    by_contra hcon
    have hs : ∀ c ∈ dbCols, c ∈ header := fun c hc => by
      by_contra hn
      exact hcon ⟨c, hc, hn⟩
    rw [buildIndexMap_of_subset header dbCols hs] at he
    cases he
  · rintro ⟨P, hP⟩
    exact (buildIndexMap_ok header dbCols P hP).1
  · intro hs
    exact ⟨_, buildIndexMap_of_subset header dbCols hs⟩
  · intro header2 P hsub hP
    have hs := (buildIndexMap_ok header dbCols P hP).1
    exact ⟨_, buildIndexMap_of_subset header2 dbCols (fun c hc => hsub c (hs c hc))⟩

/-- C6. For an index list `P` that `buildIndexMap` returned for the mapped header
and the target schema, and a record `R` with as many fields as the header,
`convertRecord R P` does not panic, its payload has the length of the target
schema, and `payload[i]` is the field `R[P[i]]`. -/
theorem convertRecord_reshape (header dbCols : List String) (P : List Int)
    (R : List String) (h : buildIndexMap header dbCols = .ok P)
    (hR : R.length = header.length) :
    ∃ payload, convertRecord R P = some payload ∧
      payload.length = dbCols.length ∧
      ∀ i, i < dbCols.length →
        ∃ (k : Nat) (field : String), P[i]? = some (k : Int) ∧
          R[k]? = some field ∧ payload[i]? = some field := by
  obtain ⟨hs, rfl⟩ := buildIndexMap_ok header dbCols P h
  have hks : ∀ k ∈ dbCols.map (fun c => header.indexOf c), k < R.length := by
    intro k hk
    obtain ⟨c, hc, rfl⟩ := List.mem_map.mp hk
    rw [hR]
    exact List.indexOf_lt_length.mpr (hs c hc)
  obtain ⟨payload, hp, hm⟩ := convertRecord_map R _ hks
  rw [List.map_map] at hp
  refine ⟨payload, hp, ?_, ?_⟩
  · have := congrArg List.length hm
    simpa using this
  · intro i hi
    have hk : header.indexOf dbCols[i] < R.length :=
      hks _ (List.mem_map.mpr ⟨dbCols[i], List.getElem_mem _, rfl⟩)
    have hget := congrArg (fun l => l[i]?) hm
    simp only [List.getElem?_map, List.getElem?_eq_getElem hi, Option.map_some',
      List.getElem?_eq_getElem hk] at hget
    refine ⟨header.indexOf dbCols[i], R[header.indexOf dbCols[i]], ?_, ?_, ?_⟩
    · simp [List.getElem?_eq_getElem hi]
    · exact List.getElem?_eq_getElem hk
    · cases hpi : payload[i]? with
      | none => rw [hpi] at hget; cases hget
      | some v =>
        rw [hpi] at hget
        simp only [Option.map_some', Option.some.injEq] at hget
        rw [hget]

/-- C6 at the S2 header, the target schema and the S2 row. -/
theorem convertRecord_reshape_witness :
    ∃ payload, convertRecord s2Row [2, 3, 0, 1, 4, 5, 6, 7, 8, 9, 10, 11] = some payload ∧
      payload.length = dbColumns.length ∧
      ∀ i, i < dbColumns.length →
        ∃ (k : Nat) (field : String),
          ([2, 3, 0, 1, 4, 5, 6, 7, 8, 9, 10, 11] : List Int)[i]? = some (k : Int) ∧
          s2Row[k]? = some field ∧ payload[i]? = some field :=
  convertRecord_reshape
    ["domain", "tld", "global_rank", "tld_rank", "ref_subnets", "ref_ips",
      "idn_domain", "idn_tld", "prev_global_rank", "prev_tld_rank",
      "prev_ref_subnets", "prev_ref_ips"]
    dbColumns [2, 3, 0, 1, 4, 5, 6, 7, 8, 9, 10, 11] s2Row (by rfl) (by rfl)

/-! ## End-to-end reshaping -/

/-- A duplicate-free list of `n` numbers below `n` is a rearrangement of
`0, ..., n-1`. -/
theorem perm_range_of_nodup (l : List Nat) (n : Nat) (hn : l.Nodup)
    (hlen : l.length = n) (hlt : ∀ k ∈ l, k < n) : l.Perm (List.range n) := by
  apply List.perm_of_nodup_nodup_toFinset_eq hn (List.nodup_range n)
  apply Finset.eq_of_subset_of_card_le
  · intro k hk
    have := hlt k (List.mem_toFinset.mp hk)
    simpa using this
  · rw [List.toFinset_card_of_nodup hn, List.toFinset_card_of_nodup (List.nodup_range n)]
    simp [hlen]

theorem lookup_s1_token (tbl : Char → Char) (t : String) (ht : t ∈ s1Header) :
    headerToColumn.lookup (toLower tbl t) = some (mappedColumn tbl t) := by
  simp only [s1Header, List.mem_cons, List.mem_singleton, List.not_mem_nil, or_false] at ht
  rcases ht with h | h | h | h | h | h | h | h | h | h | h | h <;> (subst h; rfl)

theorem dbColumns_nodup : dbColumns.Nodup := by decide

theorem countLoop_records :
    ∀ (records : List (List String)) (count : Int),
      countLoop (records.map Except.ok) count = .ok (count + (records.length : Int))
  | [], count => by simp [countLoop]
  | r :: rest, count => by
    simp only [List.map_cons, countLoop, countLoop_records rest (count + 1),
      List.length_cons]
    congr 1
    push_cast
    ring

/-- C7. For every ordering `H` of the twelve header tokens of scenario S1 and
every record `R` of twelve fields, `normalizeAndMapHeaders` and `buildIndexMap`
succeed, the index list is a rearrangement of `0, ..., 11`, `convertRecord`
returns a payload of twelve fields, and `payload[i]` is the field of `R` at
the position `j` whose header token maps to `dbColumns[i]`. For the S1 header
and row the payload is the row itself; for the S2 header and row it is
`6,1,wikipedia.org,org,450000,800000,wikipedia.org,org,6,1,449000,799000`. -/
theorem shuffled_header_reshape (tbl : Char → Char) (H R : List String)
    (hperm : H.Perm s1Header) (hR : R.length = 12) :
    (∃ mapped P payload,
      normalizeAndMapHeaders tbl H headerToColumn = .ok mapped ∧
      buildIndexMap mapped dbColumns = .ok P ∧
      P.Perm ((List.range 12).map (fun k : Nat => (k : Int))) ∧
      convertRecord R P = some payload ∧
      payload.length = 12 ∧
      ∀ (i j : Nat) (t c : String), H[j]? = some t →
        headerToColumn.lookup (toLower tbl t) = some c → dbColumns[i]? = some c →
        ∃ field, R[j]? = some field ∧ payload[i]? = some field) ∧
    (normalizeAndMapHeaders tbl s1Header headerToColumn = .ok dbColumns ∧
      buildIndexMap dbColumns dbColumns = .ok [0, 1, 2, 3, 4, 5, 6, 7, 8, 9, 10, 11] ∧
      convertRecord s1Row [0, 1, 2, 3, 4, 5, 6, 7, 8, 9, 10, 11] = some s1Row) ∧
    (normalizeAndMapHeaders tbl s2Header headerToColumn =
        .ok ["domain", "tld", "global_rank", "tld_rank", "ref_subnets", "ref_ips",
          "idn_domain", "idn_tld", "prev_global_rank", "prev_tld_rank",
          "prev_ref_subnets", "prev_ref_ips"] ∧
      buildIndexMap ["domain", "tld", "global_rank", "tld_rank", "ref_subnets",
          "ref_ips", "idn_domain", "idn_tld", "prev_global_rank", "prev_tld_rank",
          "prev_ref_subnets", "prev_ref_ips"] dbColumns =
        .ok [2, 3, 0, 1, 4, 5, 6, 7, 8, 9, 10, 11] ∧
      convertRecord s2Row [2, 3, 0, 1, 4, 5, 6, 7, 8, 9, 10, 11] =
        some ["6", "1", "wikipedia.org", "org", "450000", "800000",
          "wikipedia.org", "org", "6", "1", "449000", "799000"]) := by
  refine ⟨?_, ⟨by rfl, by rfl, by rfl⟩, ⟨by rfl, by rfl, by rfl⟩⟩
  -- the mapped header
  have hmap : normalizeAndMapHeaders tbl H headerToColumn =
      .ok (H.map (mappedColumn tbl)) := by
    rw [normalizeAndMapHeaders_ok_iff, List.map_map]
    apply List.map_congr_left
    intro t ht
    exact lookup_s1_token tbl t (hperm.mem_iff.mp ht)
  have hcols : (H.map (mappedColumn tbl)).Perm dbColumns := by
    have h1 : (H.map (mappedColumn tbl)).Perm (s1Header.map (mappedColumn tbl)) :=
      hperm.map _
    have h2 : s1Header.map (mappedColumn tbl) = dbColumns := by rfl
    rwa [h2] at h1
  have hnodup : (H.map (mappedColumn tbl)).Nodup := hcols.nodup_iff.mpr dbColumns_nodup
  have hsub : ∀ c ∈ dbColumns, c ∈ H.map (mappedColumn tbl) :=
    fun c hc => hcols.mem_iff.mpr hc
  have hlen : (H.map (mappedColumn tbl)).length = 12 := by
    rw [hcols.length_eq]; rfl
  have hidx := buildIndexMap_of_subset (H.map (mappedColumn tbl)) dbColumns hsub
  -- the index list, as natural numbers
  have hkslt : ∀ k ∈ dbColumns.map (fun c => (H.map (mappedColumn tbl)).indexOf c),
      k < 12 := by
    intro k hk
    obtain ⟨c, hc, rfl⟩ := List.mem_map.mp hk
    rw [← hlen]
    exact List.indexOf_lt_length.mpr (hsub c hc)
  have hksnodup : (dbColumns.map (fun c => (H.map (mappedColumn tbl)).indexOf c)).Nodup := by
    apply List.Nodup.map_on _ dbColumns_nodup
    intro x hx y hy hxy
    exact (List.indexOf_inj (hsub x hx) (hsub y hy)).mp hxy
  have hksperm := perm_range_of_nodup _ 12 hksnodup
    (by rw [List.length_map]; rfl) hkslt
  obtain ⟨payload, hp, hm⟩ := convertRecord_map R
    (dbColumns.map (fun c => (H.map (mappedColumn tbl)).indexOf c))
    (by rw [hR]; exact hkslt)
  rw [List.map_map] at hp
  refine ⟨H.map (mappedColumn tbl), _, payload, hmap, hidx, ?_, hp, ?_, ?_⟩
  · have := hksperm.map (fun k : Nat => (k : Int))
    rwa [List.map_map] at this
  · have := congrArg List.length hm
    simp only [List.length_map] at this
    rw [this]; rfl
  · intro i j t c hj hl hi
    have hmj : (H.map (mappedColumn tbl))[j]? = some c := by
      simp [hj, mappedColumn, hl]
    obtain ⟨hjm, hcj⟩ := List.getElem?_eq_some.mp hmj
    have hio : (H.map (mappedColumn tbl)).indexOf c = j := by
      rw [← hcj]
      exact List.indexOf_getElem hnodup j hjm
    have hjR : j < R.length := by rw [hR, ← hlen]; exact hjm
    refine ⟨R[j], List.getElem?_eq_getElem hjR, ?_⟩
    have hget := congrArg (fun l => l[i]?) hm
    simp only [List.getElem?_map, hi, Option.map_some', hio,
      List.getElem?_eq_getElem hjR] at hget
    cases hpi : payload[i]? with
    | none => rw [hpi] at hget; cases hget
    | some v =>
      rw [hpi] at hget
      simp only [Option.map_some', Option.some.injEq] at hget
      rw [hget]

/-- C7 at the S2 header and the S2 row. -/
theorem shuffled_header_reshape_witness :
    (∃ mapped P payload,
      normalizeAndMapHeaders id s2Header headerToColumn = .ok mapped ∧
      buildIndexMap mapped dbColumns = .ok P ∧
      P.Perm ((List.range 12).map (fun k : Nat => (k : Int))) ∧
      convertRecord s2Row P = some payload ∧
      payload.length = 12 ∧
      ∀ (i j : Nat) (t c : String), s2Header[j]? = some t →
        headerToColumn.lookup (toLower id t) = some c → dbColumns[i]? = some c →
        ∃ field, s2Row[j]? = some field ∧ payload[i]? = some field) ∧
    (normalizeAndMapHeaders id s1Header headerToColumn = .ok dbColumns ∧
      buildIndexMap dbColumns dbColumns = .ok [0, 1, 2, 3, 4, 5, 6, 7, 8, 9, 10, 11] ∧
      convertRecord s1Row [0, 1, 2, 3, 4, 5, 6, 7, 8, 9, 10, 11] = some s1Row) ∧
    (normalizeAndMapHeaders id s2Header headerToColumn =
        .ok ["domain", "tld", "global_rank", "tld_rank", "ref_subnets", "ref_ips",
          "idn_domain", "idn_tld", "prev_global_rank", "prev_tld_rank",
          "prev_ref_subnets", "prev_ref_ips"] ∧
      buildIndexMap ["domain", "tld", "global_rank", "tld_rank", "ref_subnets",
          "ref_ips", "idn_domain", "idn_tld", "prev_global_rank", "prev_tld_rank",
          "prev_ref_subnets", "prev_ref_ips"] dbColumns =
        .ok [2, 3, 0, 1, 4, 5, 6, 7, 8, 9, 10, 11] ∧
      convertRecord s2Row [2, 3, 0, 1, 4, 5, 6, 7, 8, 9, 10, 11] =
        some ["6", "1", "wikipedia.org", "org", "450000", "800000",
          "wikipedia.org", "org", "6", "1", "449000", "799000"]) :=
  shuffled_header_reshape id s2Header s2Row (by decide) (by rfl)

/-- C8 (code defect). `countCSVRows` starts its counter at `-1`: on a file
without any record it returns `-1`, not `0`; on a file of `n` records that
decode without error it returns `n - 1`, which is the number of data rows as
soon as there is a header. -/
theorem countCSVRows_empty_file :
    countCSVRows (.ok []) = .ok (-1) ∧
    ∀ records : List (List String),
      countCSVRows (.ok (records.map Except.ok)) =
        .ok ((records.length : Int) - 1) := by
  refine ⟨rfl, ?_⟩
  intro records
  simp only [countCSVRows, countLoop_records]
  congr 1

/-! ## Producer, buffer and row source -/

theorem producerStep_cases (s t : Sys) (h : producerStep s = some t) :
    s.closed = false ∧
    ((s.reader = [] ∧ t = { s with closed := true }) ∨
     (∃ e rest, s.reader = .error e :: rest ∧ t = { s with fatal := some e }) ∨
     (∃ rec rest, s.reader = .ok rec :: rest ∧
        convertRecord rec s.indexMap = none ∧
        t = { s with fatal := some "panic: index out of range" }) ∨
     (∃ rec rest parsed, s.reader = .ok rec :: rest ∧
        convertRecord rec s.indexMap = some parsed ∧ s.ch.length < chanCap ∧
        t = { s with reader := rest, ch := s.ch ++ [parsed],
                     processed := s.processed + 1 })) := by
  cases hcl : s.closed with
  | true => simp [producerStep, hcl] at h
  | false =>
    refine ⟨rfl, ?_⟩
    cases hr : s.reader with
    | nil =>
      simp only [producerStep, hcl, hr] at h
      exact Or.inl ⟨rfl, by simpa using h.symm⟩
    | cons x rest =>
      cases x with
      | error e =>
        simp only [producerStep, hcl, hr] at h
        exact Or.inr (Or.inl ⟨e, rest, rfl, by simpa using h.symm⟩)
      | ok rec =>
        cases hcv : convertRecord rec s.indexMap with
        | none =>
          simp only [producerStep, hcl, hr, hcv] at h
          exact Or.inr (Or.inr (Or.inl ⟨rec, rest, rfl, hcv, by simpa using h.symm⟩))
        | some parsed =>
          by_cases hlen : s.ch.length < chanCap
          · simp only [producerStep, hcl, hr, hcv, hlen] at h
            exact Or.inr (Or.inr (Or.inr
              ⟨rec, rest, parsed, rfl, hcv, hlen, by simpa using h.symm⟩))
          · simp [producerStep, hcl, hr, hcv, hlen] at h

theorem consumerStep_cases (s t : Sys) (h : consumerStep s = some t) :
    s.finished = false ∧
    ((∃ r rest, s.ch = r :: rest ∧
        t = { s with ch := rest, src := { s.src with row := some r },
                     delivered := s.delivered ++ [r] }) ∨
     (s.ch = [] ∧ s.closed = true ∧ t = { s with finished := true })) := by
  cases hf : s.finished with
  | true => simp [consumerStep, hf] at h
  | false =>
    refine ⟨rfl, ?_⟩
    cases hc : s.ch with
    | cons r rest =>
      simp only [consumerStep, ChanSource.Next, ChanSource.Values, hf, hc] at h
      exact Or.inl ⟨r, rest, rfl, by simpa using h.symm⟩
    | nil =>
      cases hcl : s.closed with
      | true =>
        simp only [consumerStep, ChanSource.Next, hf, hc, hcl] at h
        refine Or.inr ⟨rfl, rfl, ?_⟩
        have ht : t = { s with ch := [], closed := true, finished := true } := by
          simpa using h.symm
        rw [ht]
      | false => simp [consumerStep, ChanSource.Next, hf, hc, hcl] at h

/-- A scheduling step leaves the state as it is, or is a producer step, or is
a consumer step. -/
theorem step_cases (s : Sys) (who : Bool) :
    (step s who = s ∧
      (s.fatal.isSome = true ∨ (producerStep s = none ∧ consumerStep s = none))) ∨
    (s.fatal = none ∧ producerStep s = some (step s who)) ∨
    (s.fatal = none ∧ consumerStep s = some (step s who)) := by
  cases hfa : s.fatal with
  | some e => exact Or.inl ⟨by simp [step, hfa], Or.inl rfl⟩
  | none =>
    cases hp : producerStep s with
    | some t =>
      cases hc : consumerStep s with
      | some u =>
        cases who
        · exact Or.inr (Or.inr ⟨rfl, by simp [step, hfa, hc]⟩)
        · exact Or.inr (Or.inl ⟨rfl, by simp [step, hfa, hp]⟩)
      | none =>
        exact Or.inr (Or.inl ⟨rfl, by cases who <;> simp [step, hfa, hp, hc]⟩)
    | none =>
      cases hc : consumerStep s with
      | some u =>
        exact Or.inr (Or.inr ⟨rfl, by cases who <;> simp [step, hfa, hp, hc]⟩)
      | none =>
        exact Or.inl ⟨by cases who <;> simp [step, hfa, hp, hc], Or.inr ⟨rfl, rfl⟩⟩

theorem run_cons (who : Bool) (sched : List Bool) (s : Sys) :
    run (who :: sched) s = run sched (step s who) := rfl

theorem run_append (a b : List Bool) (s : Sys) :
    run (a ++ b) s = run b (run a s) := by
  simp [run, List.foldl_append]

/-- A property kept by every step holds after every run. -/
theorem run_induction (Q : Sys → Prop) (hstep : ∀ s who, Q s → Q (step s who)) :
    ∀ (sched : List Bool) (s : Sys), Q s → Q (run sched s)
  | [], _, h => h
  | who :: sched, s, h => run_induction Q hstep sched (step s who) (hstep s who h)

/-- Every step keeps the ordering invariant. -/
theorem inv_step (total : List (List String)) (s : Sys) (who : Bool)
    (h : Inv total s) : Inv total (step s who) := by
  obtain ⟨h1, h2, h3, h4⟩ := h
  rcases step_cases s who with ⟨he, -⟩ | ⟨-, hp⟩ | ⟨-, hc⟩
  · rw [he]; exact ⟨h1, h2, h3, h4⟩
  · obtain ⟨hcl, hcase⟩ := producerStep_cases s _ hp
    have hnf : s.finished = false := by
      cases hf : s.finished with
      | false => rfl
      | true => rw [(h3 hf).1] at hcl; cases hcl
    rcases hcase with ⟨hr, ht⟩ | ⟨e, rest, hr, ht⟩ | ⟨rec, rest, hr, hcv, ht⟩ |
      ⟨rec, rest, parsed, hr, hcv, hlen, ht⟩
    · rw [ht]
      exact ⟨h1, fun _ => hr, by simp [hnf], h4⟩
    · rw [ht]
      exact ⟨h1, h2, h3, h4⟩
    · rw [ht]
      exact ⟨h1, h2, h3, h4⟩
    · rw [ht]
      refine ⟨?_, by simp [hcl], by simp [hnf], h4⟩
      rw [hr] at h1
      simp only [pending, hcv] at h1
      simpa using h1
  · obtain ⟨hnf, hcase⟩ := consumerStep_cases s _ hc
    rcases hcase with ⟨r, rest, hch, ht⟩ | ⟨hch, hcl, ht⟩
    · rw [ht]
      refine ⟨?_, h2, by simp [hnf], h4.1, by simp⟩
      rw [hch] at h1
      simpa using h1
    · rw [ht]
      exact ⟨h1, h2, fun _ => ⟨hcl, hch⟩, h4⟩

/-- The ordering invariant holds in the start state. -/
theorem inv_init (reader : CsvReader) (indexMap : List Int) :
    Inv (pending indexMap reader) (initSys reader indexMap) :=
  ⟨rfl, by simp [initSys], by simp [initSys], rfl, rfl⟩

/-- No step changes the index map. -/
theorem step_indexMap (s : Sys) (who : Bool) : (step s who).indexMap = s.indexMap := by
  rcases step_cases s who with ⟨he, -⟩ | ⟨-, hp⟩ | ⟨-, hc⟩
  · rw [he]
  · obtain ⟨-, hcase⟩ := producerStep_cases s _ hp
    rcases hcase with ⟨-, ht⟩ | ⟨e, rest, -, ht⟩ | ⟨rec, rest, -, -, ht⟩ |
      ⟨rec, rest, parsed, -, -, -, ht⟩ <;> rw [ht]
  · obtain ⟨-, hcase⟩ := consumerStep_cases s _ hc
    rcases hcase with ⟨r, rest, -, ht⟩ | ⟨-, -, ht⟩ <;> rw [ht]

/-- Once `Next` has returned `false` nothing moves. -/
theorem step_finished (total : List (List String)) (s : Sys) (who : Bool)
    (h : Inv total s) (hf : s.finished = true) : step s who = s := by
  obtain ⟨-, -, h3, -⟩ := h
  rcases step_cases s who with ⟨he, -⟩ | ⟨-, hp⟩ | ⟨-, hc⟩
  · exact he
  · obtain ⟨hcl, -⟩ := producerStep_cases s _ hp
    rw [(h3 hf).1] at hcl; cases hcl
  · obtain ⟨hnf, -⟩ := consumerStep_cases s _ hc
    rw [hf] at hnf; cases hnf

/-- In a clean state in which `Next` has not returned `false`, every step
keeps the state clean and brings the end of the stream one step closer. -/
theorem clean_step (total : List (List String)) (s : Sys) (who : Bool)
    (h : Inv total s) (hc : Clean s) (hf : s.finished = false) :
    Clean (step s who) ∧ stepsLeft (step s who) + 1 = stepsLeft s := by
  obtain ⟨-, h2, -, -⟩ := h
  obtain ⟨hfa, hrd⟩ := hc
  rcases step_cases s who with ⟨-, hstuck⟩ | ⟨-, hp⟩ | ⟨-, hcs⟩
  · exfalso
    rcases hstuck with hs | ⟨hpn, hcn⟩
    · rw [hfa] at hs; cases hs
    · cases hch : s.ch with
      | cons r rest => simp [consumerStep, ChanSource.Next, hf, hch] at hcn
      | nil =>
        cases hcl : s.closed with
        | true => simp [consumerStep, ChanSource.Next, hf, hch, hcl] at hcn
        | false =>
          cases hr : s.reader with
          | nil => simp [producerStep, hcl, hr] at hpn
          | cons x rest =>
            obtain ⟨rec, parsed, rfl, hcv⟩ := hrd x (by rw [hr]; exact List.mem_cons_self _ _)
            simp [producerStep, hcl, hr, hcv, hch, chanCap] at hpn
  · obtain ⟨hcl, hcase⟩ := producerStep_cases s _ hp
    rcases hcase with ⟨hr, ht⟩ | ⟨e, rest, hr, ht⟩ | ⟨rec, rest, hr, hcv, ht⟩ |
      ⟨rec, rest, parsed, hr, hcv, hlen, ht⟩
    · rw [ht]
      refine ⟨⟨hfa, hrd⟩, ?_⟩
      simp [stepsLeft, hcl, hf]
    · exfalso
      obtain ⟨rec, parsed, hx, -⟩ := hrd (.error e) (by rw [hr]; exact List.mem_cons_self _ _)
      cases hx
    · exfalso
      obtain ⟨rec2, parsed, hx, hcv2⟩ := hrd (.ok rec) (by rw [hr]; exact List.mem_cons_self _ _)
      cases hx
      rw [hcv] at hcv2; cases hcv2
    · rw [ht]
      refine ⟨⟨hfa, fun x hx => hrd x (by rw [hr]; exact List.mem_cons_of_mem _ hx)⟩, ?_⟩
      simp only [stepsLeft, hcl, hf, hr, List.length_cons, List.length_append,
        List.length_singleton]
      simp
      omega
  · obtain ⟨-, hcase⟩ := consumerStep_cases s _ hcs
    rcases hcase with ⟨r, rest, hch, ht⟩ | ⟨hch, hcl, ht⟩
    · rw [ht]
      refine ⟨⟨hfa, hrd⟩, ?_⟩
      simp only [stepsLeft, hf, hch, List.length_cons]
      omega
    · rw [ht]
      refine ⟨⟨hfa, hrd⟩, ?_⟩
      simp [stepsLeft, hcl, hf, hch, h2 hcl]

/-- A clean run under a schedule at least as long as the steps left ends with
`Next` having returned `false`, and without fatal error. -/
theorem clean_run_finishes (total : List (List String)) :
    ∀ (sched : List Bool) (s : Sys), Inv total s → Clean s →
      stepsLeft s ≤ sched.length →
      (run sched s).finished = true ∧ (run sched s).fatal = none
  | [], s, _, hc, hlen => by
    refine ⟨?_, hc.1⟩
    cases hf : s.finished with
    | true => exact hf
    | false => simp [stepsLeft, hf] at hlen
  | who :: sched, s, hi, hc, hlen => by
    rw [run_cons]
    cases hf : s.finished with
    | true =>
      rw [step_finished total s who hi hf]
      apply clean_run_finishes total sched s hi hc
      have h3 := hi.2.2.1 hf
      simp [stepsLeft, hf, h3.1, h3.2, hi.2.1 h3.1]
    | false =>
      obtain ⟨hc2, hm⟩ := clean_step total s who hi hc hf
      apply clean_run_finishes total sched _ (inv_step total s who hi) hc2
      simp only [List.length_cons] at hlen
      omega

theorem pending_records (P : List Int) :
    ∀ (records : List (List String)),
      (∀ r ∈ records, ∃ parsed, convertRecord r P = some parsed) →
      records.map (fun r => convertRecord r P) =
        (pending P (records.map Except.ok)).map some
  | [], _ => rfl
  | r :: rest, h => by
    obtain ⟨parsed, hp⟩ := h r (List.mem_cons_self _ _)
    have ih := pending_records P rest (fun x hx => h x (List.mem_cons_of_mem _ hx))
    simp [pending, hp, ih]

theorem mapped_length (tbl : Char → Char) (header mapped : List String)
    (mapper : List (String × String))
    (h : normalizeAndMapHeaders tbl header mapper = .ok mapped) :
    mapped.length = header.length := by
  have := congrArg List.length ((normalizeAndMapHeaders_ok_iff tbl mapper header mapped).mp h)
  simpa using this.symm

/-- C9. For a CSV made of a header that maps and indexes without error and of
data records `r1..rn` with as many fields as the header, all decoding without
error, the payloads `convertRecord r1 P, ..., convertRecord rn P` exist, and
under every schedule of producer and consumer, where the consumer calls
`Next` and, after each `true`, `Values`: the slices that `Values` has returned
so far are an initial part of that sequence; the current row of the row source
is the last of them; once `Next` has returned `false` they are the whole
sequence; and a schedule of at least `2n + 2` steps ends with `Next` having
returned `false`, no fatal error, and the whole sequence returned by
`Values`. -/
theorem order_preservation (tbl : Char → Char) (header : List String)
    (records : List (List String)) (mapped : List String) (P : List Int)
    (hmap : normalizeAndMapHeaders tbl header headerToColumn = .ok mapped)
    (hidx : buildIndexMap mapped dbColumns = .ok P)
    (hlen : ∀ r ∈ records, r.length = header.length) :
    ∃ payloads : List (List String),
      records.map (fun r => convertRecord r P) = payloads.map some ∧
      (∀ sched : List Bool, ∃ later,
        payloads =
          (ingest tbl sched (.ok header :: records.map Except.ok)).delivered ++ later) ∧
      (∀ sched : List Bool,
        (ingest tbl sched (.ok header :: records.map Except.ok)).src.row =
          (ingest tbl sched (.ok header :: records.map Except.ok)).delivered.getLast?) ∧
      (∀ sched : List Bool,
        (ingest tbl sched (.ok header :: records.map Except.ok)).finished = true →
        (ingest tbl sched (.ok header :: records.map Except.ok)).delivered = payloads) ∧
      (∀ sched : List Bool, 2 * records.length + 2 ≤ sched.length →
        (ingest tbl sched (.ok header :: records.map Except.ok)).finished = true ∧
        (ingest tbl sched (.ok header :: records.map Except.ok)).fatal = none ∧
        (ingest tbl sched (.ok header :: records.map Except.ok)).delivered = payloads) := by
  have hml := mapped_length tbl header mapped headerToColumn hmap
  have hconv : ∀ r ∈ records, ∃ parsed, convertRecord r P = some parsed := by
    intro r hr
    exact convertRecord_isSome mapped dbColumns P r hidx (by rw [hlen r hr, hml])
  have hing : ∀ sched : List Bool,
      ingest tbl sched (.ok header :: records.map Except.ok) =
        run sched (initSys (records.map Except.ok) P) := by
    intro sched
    simp only [ingest, hmap, hidx]
  have hinv : ∀ sched : List Bool,
      Inv (pending P (records.map Except.ok))
        (run sched (initSys (records.map Except.ok) P)) := fun sched =>
    run_induction _ (fun s who => inv_step _ s who) sched _ (inv_init _ _)
  have hdone : ∀ sched : List Bool,
      (run sched (initSys (records.map Except.ok) P)).finished = true →
      (run sched (initSys (records.map Except.ok) P)).delivered =
        pending P (records.map Except.ok) := by
    intro sched hf
    obtain ⟨h1, h2, h3, -⟩ := hinv sched
    obtain ⟨hcl, hch⟩ := h3 hf
    rw [hch, h2 hcl] at h1
    simpa [pending] using h1
  refine ⟨pending P (records.map Except.ok), pending_records P records hconv,
    ?_, ?_, ?_, ?_⟩
  · intro sched
    rw [hing]
    obtain ⟨h1, -⟩ := hinv sched
    exact ⟨_, by rw [← List.append_assoc]; exact h1.symm⟩
  · intro sched
    rw [hing]
    exact (hinv sched).2.2.2.2
  · intro sched hf
    rw [hing] at hf ⊢
    exact hdone sched hf
  · intro sched hs
    rw [hing]
    have hclean : Clean (initSys (records.map Except.ok) P) := by
      refine ⟨rfl, ?_⟩
      intro x hx
      obtain ⟨r, hr, rfl⟩ := List.mem_map.mp hx
      obtain ⟨parsed, hp⟩ := hconv r hr
      exact ⟨r, parsed, rfl, hp⟩
    have hfin := clean_run_finishes _ sched _ (inv_init _ _) hclean
      (by simp [stepsLeft, initSys]; omega)
    exact ⟨hfin.1, hfin.2, hdone sched hfin.1⟩

/-- C9 at the S1 header followed by the S1 row and the S2 row. -/
theorem order_preservation_witness :
    ∃ payloads : List (List String),
      [s1Row, s2Row].map
          (fun r => convertRecord r [0, 1, 2, 3, 4, 5, 6, 7, 8, 9, 10, 11]) =
        payloads.map some ∧
      (∀ sched : List Bool, ∃ later,
        payloads =
          (ingest id sched (.ok s1Header :: [s1Row, s2Row].map Except.ok)).delivered ++
            later) ∧
      (∀ sched : List Bool,
        (ingest id sched (.ok s1Header :: [s1Row, s2Row].map Except.ok)).src.row =
          (ingest id sched
            (.ok s1Header :: [s1Row, s2Row].map Except.ok)).delivered.getLast?) ∧
      (∀ sched : List Bool,
        (ingest id sched (.ok s1Header :: [s1Row, s2Row].map Except.ok)).finished = true →
        (ingest id sched (.ok s1Header :: [s1Row, s2Row].map Except.ok)).delivered =
          payloads) ∧
      (∀ sched : List Bool, 2 * [s1Row, s2Row].length + 2 ≤ sched.length →
        (ingest id sched (.ok s1Header :: [s1Row, s2Row].map Except.ok)).finished = true ∧
        (ingest id sched (.ok s1Header :: [s1Row, s2Row].map Except.ok)).fatal = none ∧
        (ingest id sched (.ok s1Header :: [s1Row, s2Row].map Except.ok)).delivered =
          payloads) :=
  order_preservation id s1Header [s1Row, s2Row] dbColumns
    [0, 1, 2, 3, 4, 5, 6, 7, 8, 9, 10, 11] (by rfl) (by rfl) (by decide)

/-- No step assigns the error field of the row source. -/
theorem step_err (s : Sys) (who : Bool) : (step s who).src.err = s.src.err := by
  rcases step_cases s who with ⟨he, -⟩ | ⟨-, hp⟩ | ⟨-, hc⟩
  · rw [he]
  · obtain ⟨-, hcase⟩ := producerStep_cases s _ hp
    rcases hcase with ⟨-, ht⟩ | ⟨e, rest, -, ht⟩ | ⟨rec, rest, -, -, ht⟩ |
      ⟨rec, rest, parsed, -, -, -, ht⟩ <;> rw [ht]
  · obtain ⟨-, hcase⟩ := consumerStep_cases s _ hc
    rcases hcase with ⟨r, rest, -, ht⟩ | ⟨-, -, ht⟩ <;> rw [ht]

/-- The method `Err` returns no error in any state of any ingest. -/
theorem ingest_err_none (tbl : Char → Char) (sched : List Bool) (csv : CsvReader) :
    (ingest tbl sched csv).src.Err = none := by
  have hrun : ∀ (r : CsvReader) (P : List Int), (run sched (initSys r P)).src.err = none :=
    fun r P => run_induction (fun s => s.src.err = none)
      (fun s who h => by
        show (step s who).src.err = none
        rw [step_err]; exact h) sched _ rfl
  unfold ChanSource.Err ingest
  split
  · rfl
  · rfl
  · split
    · rfl
    · split
      · rfl
      · exact hrun _ _

/-- A step of a doomed state gives a doomed state; a fatal error stays; without
one, the step either is the fatal decode error or brings it one step closer. -/
theorem doomed_step (e : String) (s : Sys) (who : Bool) (h : Doomed e s) :
    Doomed e (step s who) ∧
    (s.fatal = some e → (step s who).fatal = some e) ∧
    (s.fatal = none → (step s who).fatal = some e ∨
      ((step s who).fatal = none ∧
        stepsToError (step s who) + 1 = stepsToError s)) := by
  obtain ⟨hcl, hf, hfa, recs, rest, hr, hcv⟩ := h
  rcases step_cases s who with ⟨he, hstuck⟩ | ⟨hnone, hp⟩ | ⟨hnone, hc⟩
  · rw [he]
    refine ⟨⟨hcl, hf, hfa, recs, rest, hr, hcv⟩, fun h => h, ?_⟩
    intro hn
    exfalso
    rcases hstuck with hs | ⟨hpn, hcn⟩
    · rw [hn] at hs; cases hs
    · cases recs with
      | nil =>
        simp only [List.map_nil, List.nil_append] at hr
        simp [producerStep, hcl, hr] at hpn
      | cons r recs =>
        obtain ⟨parsed, hpr⟩ := hcv r (List.mem_cons_self _ _)
        simp only [List.map_cons, List.cons_append] at hr
        cases hch : s.ch with
        | nil => simp [producerStep, hcl, hr, hpr, hch, chanCap] at hpn
        | cons x xs => simp [consumerStep, ChanSource.Next, hf, hch] at hcn
  · obtain ⟨-, hcase⟩ := producerStep_cases s _ hp
    rcases hcase with ⟨hr2, ht⟩ | ⟨e2, rest2, hr2, ht⟩ | ⟨rec, rest2, hr2, hcv2, ht⟩ |
      ⟨rec, rest2, parsed, hr2, hcv2, hlen, ht⟩
    · exfalso
      rw [hr2] at hr
      cases recs <;> simp at hr
    · cases recs with
      | cons r recs => rw [hr2] at hr; simp at hr
      | nil =>
        rw [hr2] at hr
        simp only [List.map_nil, List.nil_append, List.cons.injEq, Except.error.injEq] at hr
        obtain ⟨rfl, rfl⟩ := hr
        rw [ht]
        exact ⟨⟨hcl, hf, Or.inr rfl, [], rest2, by simpa using hr2, by simp⟩,
          fun _ => rfl, fun _ => Or.inl rfl⟩
    · exfalso
      cases recs with
      | nil => rw [hr2] at hr; simp at hr
      | cons r recs =>
        rw [hr2] at hr
        simp only [List.map_cons, List.cons_append, List.cons.injEq, Except.ok.injEq] at hr
        obtain ⟨parsed, hpr⟩ := hcv r (List.mem_cons_self _ _)
        rw [← hr.1, hcv2] at hpr
        cases hpr
    · cases recs with
      | nil => rw [hr2] at hr; simp at hr
      | cons r recs =>
        rw [hr2] at hr
        simp only [List.map_cons, List.cons_append, List.cons.injEq, Except.ok.injEq] at hr
        rw [ht]
        refine ⟨⟨hcl, hf, hfa, recs, rest, hr.2,
          fun x hx => hcv x (List.mem_cons_of_mem _ hx)⟩, ?_, ?_⟩
        · intro h; rw [hnone] at h; cases h
        · intro _
          refine Or.inr ⟨hnone, ?_⟩
          simp only [stepsToError, hr2, pending, hcv2, List.length_cons,
            List.length_append, List.length_nil]
          omega
  · obtain ⟨-, hcase⟩ := consumerStep_cases s _ hc
    rcases hcase with ⟨r, rest2, hch, ht⟩ | ⟨-, hcl2, -⟩
    · rw [ht]
      refine ⟨⟨hcl, hf, hfa, recs, rest, hr, hcv⟩, ?_, ?_⟩
      · intro h; rw [hnone] at h; cases h
      · intro _
        refine Or.inr ⟨hnone, ?_⟩
        simp only [stepsToError, hch, List.length_cons]
        omega
    · rw [hcl] at hcl2; cases hcl2

/-- A doomed run stays doomed, keeps a fatal error, and reaches the fatal
decode error within the steps left to it. -/
theorem doomed_run (e : String) :
    ∀ (sched : List Bool) (s : Sys), Doomed e s →
      Doomed e (run sched s) ∧
      (s.fatal = some e → (run sched s).fatal = some e) ∧
      (s.fatal = none → stepsToError s + 1 ≤ sched.length →
        (run sched s).fatal = some e)
  | [], s, h => ⟨h, fun hf => hf, fun _ hl => by simp at hl⟩
  | who :: sched, s, h => by
    obtain ⟨hd, hkeep, hprog⟩ := doomed_step e s who h
    obtain ⟨ih1, ih2, ih3⟩ := doomed_run e sched (step s who) hd
    rw [run_cons]
    refine ⟨ih1, fun hf => ih2 (hkeep hf), ?_⟩
    intro hn hl
    rcases hprog hn with hfat | ⟨hnone, hm⟩
    · exact ih2 hfat
    · apply ih3 hnone
      simp only [List.length_cons] at hl
      omega

theorem pending_before_error (P : List Int) (e : String) (rest : CsvReader) :
    ∀ (records : List (List String)),
      (∀ r ∈ records, ∃ parsed, convertRecord r P = some parsed) →
      (pending P (records.map Except.ok ++ .error e :: rest)).length = records.length
  | [], _ => rfl
  | r :: recs, h => by
    obtain ⟨parsed, hp⟩ := h r (List.mem_cons_self _ _)
    have ih := pending_before_error P e rest recs
      (fun x hx => h x (List.mem_cons_of_mem _ hx))
    simp [pending, hp, ih]

/-- The run of an ingest whose reader holds a decode error after records with
as many fields as the header. -/
theorem ingest_doomed (tbl : Char → Char) (header : List String)
    (records : List (List String)) (e : String) (rest : CsvReader)
    (mapped : List String) (P : List Int)
    (hmap : normalizeAndMapHeaders tbl header headerToColumn = .ok mapped)
    (hidx : buildIndexMap mapped dbColumns = .ok P)
    (hlen : ∀ r ∈ records, r.length = header.length) (sched : List Bool) :
    (ingest tbl sched (.ok header :: (records.map Except.ok ++ .error e :: rest))).closed
      = false ∧
    (ingest tbl sched (.ok header :: (records.map Except.ok ++ .error e :: rest))).finished
      = false ∧
    (2 * records.length + 1 ≤ sched.length →
      (ingest tbl sched (.ok header :: (records.map Except.ok ++ .error e :: rest))).fatal
        = some e) := by
  have hml := mapped_length tbl header mapped headerToColumn hmap
  have hconv : ∀ r ∈ records, ∃ parsed, convertRecord r P = some parsed := by
    intro r hr
    exact convertRecord_isSome mapped dbColumns P r hidx (by rw [hlen r hr, hml])
  have hing : ingest tbl sched (.ok header :: (records.map Except.ok ++ .error e :: rest)) =
      run sched (initSys (records.map Except.ok ++ .error e :: rest) P) := by
    simp only [ingest, hmap, hidx]
  have hd : Doomed e (initSys (records.map Except.ok ++ .error e :: rest) P) :=
    ⟨rfl, rfl, Or.inl rfl, records, rest, rfl, hconv⟩
  obtain ⟨⟨hcl, hf, -⟩, -, hfat⟩ := doomed_run e sched _ hd
  rw [hing]
  refine ⟨hcl, hf, ?_⟩
  intro hs
  apply hfat rfl
  simp only [stepsToError, initSys, pending_before_error P e rest records hconv,
    List.length_nil]
  omega

/-- C10 (as amended). When the header maps and indexes without error and the
`k`-th data record fails to decode with error `e` after `k - 1` records with
as many fields as the header, then under every schedule `Err` returns no
error, the channel is never closed and `Next` never returns `false`, and a
schedule of at least `2 (k - 1) + 1` steps ends in the process having exited
through `log.Fatal` with `e`. On a clean end of stream, and in every state of
every ingest, `Err` returns no error. -/
theorem decode_error_is_fatal (tbl : Char → Char) (header : List String)
    (records : List (List String)) (e : String) (rest : CsvReader)
    (mapped : List String) (P : List Int)
    (hmap : normalizeAndMapHeaders tbl header headerToColumn = .ok mapped)
    (hidx : buildIndexMap mapped dbColumns = .ok P)
    (hlen : ∀ r ∈ records, r.length = header.length) :
    (∀ sched : List Bool,
      (ingest tbl sched
        (.ok header :: (records.map Except.ok ++ .error e :: rest))).src.Err = none ∧
      (ingest tbl sched
        (.ok header :: (records.map Except.ok ++ .error e :: rest))).closed = false ∧
      (ingest tbl sched
        (.ok header :: (records.map Except.ok ++ .error e :: rest))).finished = false ∧
      (2 * records.length + 1 ≤ sched.length →
        (ingest tbl sched
          (.ok header :: (records.map Except.ok ++ .error e :: rest))).fatal = some e)) ∧
    (∀ (sched : List Bool) (csv : CsvReader), (ingest tbl sched csv).src.Err = none) := by
  refine ⟨?_, fun sched csv => ingest_err_none tbl sched csv⟩
  intro sched
  exact ⟨ingest_err_none tbl sched _,
    ingest_doomed tbl header records e rest mapped P hmap hidx hlen sched⟩

/-- C10 at the S1 header, the S1 row and a decode error. -/
theorem decode_error_is_fatal_witness :
    (∀ sched : List Bool,
      (ingest id sched
        (.ok s1Header :: ([s1Row].map Except.ok ++ .error "bad record" :: []))).src.Err
          = none ∧
      (ingest id sched
        (.ok s1Header :: ([s1Row].map Except.ok ++ .error "bad record" :: []))).closed
          = false ∧
      (ingest id sched
        (.ok s1Header :: ([s1Row].map Except.ok ++ .error "bad record" :: []))).finished
          = false ∧
      (2 * [s1Row].length + 1 ≤ sched.length →
        (ingest id sched
          (.ok s1Header :: ([s1Row].map Except.ok ++ .error "bad record" :: []))).fatal
            = some "bad record")) ∧
    (∀ (sched : List Bool) (csv : CsvReader), (ingest id sched csv).src.Err = none) :=
  decode_error_is_fatal id s1Header [s1Row] "bad record" [] dbColumns
    [0, 1, 2, 3, 4, 5, 6, 7, 8, 9, 10, 11] (by rfl) (by rfl) (by decide)

/-- C10 as stated fails on the CSV of scenario S6: under the schedule producer,
producer, consumer, consumer the process has exited through `log.Fatal` with
the decode error, the channel is not closed, `Next` has not returned `false`
and `Err` returns no error; under no schedule does `Err` return the decode
error or is the channel closed. -/
theorem decode_error_not_recorded :
    (ingest id [true, true, false, false] s6Csv).fatal =
      some "parse error: unterminated quoted field" ∧
    (ingest id [true, true, false, false] s6Csv).closed = false ∧
    (ingest id [true, true, false, false] s6Csv).finished = false ∧
    (ingest id [true, true, false, false] s6Csv).src.Err = none ∧
    (∀ sched : List Bool,
      (ingest id sched s6Csv).src.Err ≠ some "parse error: unterminated quoted field" ∧
      (ingest id sched s6Csv).closed = false ∧
      (ingest id sched s6Csv).finished = false) := by
  refine ⟨by rfl, by rfl, by rfl, by rfl, ?_⟩
  intro sched
  refine ⟨by rw [ingest_err_none]; simp, ?_⟩
  have h := ingest_doomed id s1Header [s1Row] "parse error: unterminated quoted field" []
    dbColumns [0, 1, 2, 3, 4, 5, 6, 7, 8, 9, 10, 11] (by rfl) (by rfl) (by decide) sched
  exact ⟨h.1, h.2.1⟩

end CsvIngest
